import Mathlib

/-!
Verification development for `calendar_analyzer.py`.

Modelling conventions:
* An aware Python `datetime` is modelled by `PyDateTime`: `wall` is the
  wall-clock reading in seconds since 0001-01-01T00:00:00 of its own clock
  (so the proleptic-Gregorian ordinal of its date is `wall / 86400 + 1`,
  matching `datetime.toordinal`), and `off` is its `utcoffset()` in seconds.
  The absolute instant it denotes is `wall - off`.  Comparison and
  subtraction of aware datetimes compare/subtract instants, as in Python.
* A `tzinfo` object (here `dateutil`'s America/Los_Angeles) is modelled
  abstractly by `Tz`: `fromInstant` gives the UTC offset chosen by
  `astimezone` for a given absolute instant, `fromWall` the offset attached
  when the zone is supplied to the `datetime` constructor for a given
  wall-clock reading.  Theorems quantify over the zone.
* `timedelta` values are integers (seconds).  Sub-second precision is not
  modelled because the program only manipulates whole-second values.
* Python `dict`s that are read only through key lookup are modelled
  extensionally as functions to `Option`; `events_data`, whose entry order
  mirrors the pattern list, is kept as an association list.
* A compiled regular expression is modelled as an opaque predicate
  `String → Bool`; `analyze_events` only calls `.search`.
-/

/-- Abstract timezone: offsets (in seconds) as a function of the absolute
instant (used by `astimezone`) and of the wall-clock reading (used when the
zone is attached via the `datetime` constructor). -/
structure Tz where
  fromInstant : Int → Int
  fromWall : Int → Int

/-- An aware Python datetime: wall-clock seconds since 0001-01-01T00:00:00
together with its UTC offset in seconds. -/
structure PyDateTime where
  wall : Int
  off : Int
deriving DecidableEq

/-- The absolute instant denoted by an aware datetime (seconds). -/
def PyDateTime.instant (d : PyDateTime) : Int := d.wall - d.off

/-- Python `d.replace(tzinfo=timezone.utc)`: keep the wall clock, force the
offset to zero. -/
def replace_tzinfo_utc (d : PyDateTime) : PyDateTime := ⟨d.wall, 0⟩

/-- Python `d.astimezone(tz)`: re-express the same instant in zone `tz`. -/
def astimezone (tzv : Tz) (d : PyDateTime) : PyDateTime :=
  ⟨d.instant + tzv.fromInstant d.instant, tzv.fromInstant d.instant⟩

/-- Python `datetime.combine(date, datetime.min.time(), tzinfo=tz)`:
midnight of the date (given by its proleptic-Gregorian ordinal) with the
offset the zone assigns to that wall-clock reading. -/
def combine_midnight (tzv : Tz) (ord : Int) : PyDateTime :=
  ⟨(ord - 1) * 86400, tzv.fromWall ((ord - 1) * 86400)⟩

/-- A DTSTART/DTEND value from the calendar file: either a datetime (with
the UTC offset it carried; a naive value never has its offset read, because
the code immediately overwrites the tzinfo) or a bare date, given by its
proleptic-Gregorian ordinal. -/
inductive ICalDT where
  | timed (wall : Int) (off : Int)
  | allDay (ord : Int)
deriving DecidableEq

/-- Python `value + timedelta(hours=1)`: for a datetime the wall clock moves
one hour; for a `date`, adding `timedelta(hours=1)` leaves the date
unchanged (only whole days act on dates). -/
def add_one_hour : ICalDT → ICalDT
  | .timed w o => .timed (w + 3600) o
  | .allDay d => .allDay d

/-- Lines 55–64 of `analyze_events`: a datetime value has its tzinfo
replaced by UTC and is then converted to the local zone; a date value
becomes midnight local time on that date. -/
def normalize_dt (tzv : Tz) : ICalDT → PyDateTime
  | .timed w o => astimezone tzv (replace_tzinfo_utc ⟨w, o⟩)
  | .allDay d => combine_midnight tzv d

/-- A walked calendar component with the properties `analyze_events`
reads.  Missing properties are `none`. -/
structure Component where
  name : String
  dtstart : Option ICalDT
  dtend : Option ICalDT
  summary : Option String
  description : Option String
  location : Option String
deriving DecidableEq

/-- The record `analyze_events` stores per matched event: normalized start,
summary, and duration as a timedelta (seconds). -/
abbrev Rec := PyDateTime × String × Int

/-- The body of the component loop of `analyze_events` (lines 41–74): skip
non-VEVENTs and events without DTSTART, default a missing DTEND to start
plus one hour, normalize both ends, skip events outside the analysis
window, and otherwise return the stored record together with the
searchable text used for pattern matching. -/
def process_event (tzv : Tz) (start_time end_time : PyDateTime)
    (c : Component) : Option (Rec × String) :=
  if c.name = "VEVENT" then
    match c.dtstart with
    | none => none
    | some ds =>
      let de := match c.dtend with
        | none => add_one_hour ds
        | some v => v
      let is_all_day := match ds with
        | .timed _ _ => false
        | .allDay _ => true
      let event_start := normalize_dt tzv ds
      let event_end := normalize_dt tzv de
      if event_end.instant < start_time.instant ∨
          end_time.instant < event_start.instant then
        none
      else
        let duration : Int :=
          if is_all_day then 0 else event_end.instant - event_start.instant
        let summary := c.summary.getD ""
        let description := c.description.getD ""
        let location := c.location.getD ""
        some ((event_start, summary, duration),
              summary ++ " " ++ description ++ " " ++ location)
  else
    none

/-- One iteration of the event loop: if the event survives
`process_event`, append its record to every pattern entry whose regex
matches the searchable text, and to the unmatched list when none does. -/
def analyze_step (patterns : List (String × (String → Bool)))
    (tzv : Tz) (start_time end_time : PyDateTime)
    (st : List ((String × (String → Bool)) × List Rec) × List Rec)
    (c : Component) :
    List ((String × (String → Bool)) × List Rec) × List Rec :=
  match process_event tzv start_time end_time c with
  | none => st
  | some (r, text) =>
    let matched := patterns.any (fun p => p.2 text)
    (st.1.map (fun en => (en.1, if en.1.2 text then en.2 ++ [r] else en.2)),
     if matched then st.2 else st.2 ++ [r])

/-- `CalendarAnalyzer.analyze_events`: the calendars are walked in order
(each calendar modelled by its walked component list), the state starts
with an empty list per pattern, and the result is the per-pattern event
data together with the unmatched-event list (which the script only
prints). -/
def analyze_events (tzv : Tz) (start_time end_time : PyDateTime)
    (patterns : List (String × (String → Bool)))
    (cals : List (List Component)) :
    List (String × List Rec) × List Rec :=
  let res := (cals.flatMap id).foldl
    (analyze_step patterns tzv start_time end_time)
    (patterns.map (fun p => (p, ([] : List Rec))), ([] : List Rec))
  (res.1.map (fun en => (en.1.1, en.2)), res.2)

/-- The proleptic-Gregorian ordinal (`datetime.toordinal`) of the date of a
wall-clock reading in seconds; 0001-01-01 has ordinal 1. -/
def ord_of_wall (w : Int) : Int := w / 86400 + 1

/-- The date ordinal of an aware datetime (`d.date().toordinal()`), read
from its wall clock. -/
def PyDateTime.dateOrd (d : PyDateTime) : Int := ord_of_wall d.wall

/-- CPython `date.weekday()`: Monday is 0, computed from the ordinal. -/
def ord_weekday (o : Int) : Int := (o + 6) % 7

/-- Python `event_start.weekday()` for an aware datetime. -/
def PyDateTime.weekday (d : PyDateTime) : Int := ord_weekday d.dateOrd

/-- Line 129 of `get_weekly_stats`:
`monday = event_start - timedelta(days=event_start.weekday())`, followed by
`monday.strftime('%Y-%m-%d')`.  The date string is injective on dates, so
the key is modelled by the date ordinal of `monday`. -/
def week_key (d : PyDateTime) : Int :=
  ord_of_wall (d.wall - d.weekday * 86400)

/-- Days from 1970-01-01 to the date with the given proleptic-Gregorian
ordinal (`toordinal(1970-01-01) = 719163`). -/
def days_from_epoch (o : Int) : Int := o - 719163

/-- Standard civil-from-days conversion (proleptic Gregorian), used to read
the year and month back off a date ordinal.  Python keeps year and month as
stored fields; the model stores seconds, so `strftime('%Y-%m')` is modelled
by this conversion applied to the date ordinal. -/
def civil_from_ord (o : Int) : Int × Int × Int :=
  let z := days_from_epoch o + 719468
  let era := z / 146097
  let doe := z - era * 146097
  let yoe := (doe - doe / 1460 + doe / 36524 - doe / 146096) / 365
  let y := yoe + era * 400
  let doy := doe - (365 * yoe + yoe / 4 - yoe / 100)
  let mp := (5 * doy + 2) / 153
  let d := doy - (153 * mp + 2) / 5 + 1
  let m := mp + (if mp < 10 then 3 else -9)
  (y + (if m ≤ 2 then 1 else 0), m, d)

/-- Line 144 `event_start.strftime('%Y-%m')`, split back into integers on
line 151: the (year, month) pair of the start date. -/
def month_key (d : PyDateTime) : Int × Int :=
  ((civil_from_ord d.dateOrd).1, (civil_from_ord d.dateOrd).2.1)

/-- CPython `datetime._is_leap`. -/
def is_leap (y : Int) : Bool :=
  (y % 4 == 0) && (!(y % 100 == 0) || (y % 400 == 0))

/-- CPython `_days_before_year`. -/
def days_before_year (y : Int) : Int :=
  365 * (y - 1) + (y - 1) / 4 - (y - 1) / 100 + (y - 1) / 400

/-- CPython `_DAYS_BEFORE_MONTH[m]`: cumulative non-leap day counts. -/
def cum_days (m : Int) : Int :=
  if m ≤ 1 then 0
  else if m = 2 then 31
  else if m = 3 then 59
  else if m = 4 then 90
  else if m = 5 then 120
  else if m = 6 then 151
  else if m = 7 then 181
  else if m = 8 then 212
  else if m = 9 then 243
  else if m = 10 then 273
  else if m = 11 then 304
  else 334

/-- CPython `_days_before_month`. -/
def days_before_month (y m : Int) : Int :=
  cum_days m + (if 2 < m ∧ is_leap y then 1 else 0)

/-- CPython `_ymd2ord`, the ordinal underlying `datetime` subtraction. -/
def ymd2ord (y m d : Int) : Int :=
  days_before_year y + days_before_month y m + d

/-- Lines 151–156 of `get_monthly_stats`: the day count of a month as the
difference, in days, between the first of the next month (January of the
following year after December) and the first of the month. -/
def days_in_month (y m : Int) : Int :=
  (if m = 12 then ymd2ord (y + 1) 1 1 else ymd2ord y (m + 1) 1) - ymd2ord y m 1

/-- The true length of a month of the proleptic-Gregorian calendar. -/
def month_length (leap : Bool) (m : Int) : Int :=
  if m = 2 then (if leap then 29 else 28)
  else if m = 4 ∨ m = 6 ∨ m = 9 ∨ m = 11 then 30
  else 31

/-- Python `duration.total_seconds() / 3600`, with exact arithmetic in
place of floats. -/
def hours_of (dur : Int) : ℚ := (dur : ℚ) / 3600

/-- Sum of the durations of a record list, in hours. -/
def hours_sum (l : List Rec) : ℚ := (l.map (fun r => hours_of r.2.2)).sum

/-- The `days` list of `get_day_stats`. -/
def days : List String :=
  ["Monday", "Tuesday", "Wednesday", "Thursday", "Friday", "Saturday", "Sunday"]

/-- Line 103 `days[event_start.weekday()]`. -/
def day_name (w : Int) : String := days.getD w.toNat ""

/-- One `{'count': …, 'total_hours': …, 'avg_hours': …}` cell of
`get_day_stats`. -/
structure DayAgg where
  count : Nat
  total_hours : ℚ
  avg_hours : ℚ
deriving DecidableEq

/-- The per-event update of the first loop of `get_day_stats` (lines
101–106), on the day-name-indexed table. -/
def day_step (st : String → DayAgg) (r : Rec) : String → DayAgg :=
  let day := day_name r.1.weekday
  fun n => if day = n then
    ⟨(st n).count + 1, (st n).total_hours + hours_of r.2.2, (st n).avg_hours⟩
  else st n

/-- `get_day_stats` for one pattern: zero-initialized table, the
accumulation loop, then the average pass (lines 108–114), which rewrites
`avg_hours` only where the count is positive. -/
def day_stats_of (evs : List Rec) : String → DayAgg :=
  let acc := evs.foldl day_step (fun _ => ⟨0, 0, 0⟩)
  fun n =>
    if (acc n).count > 0 then
      ⟨(acc n).count, (acc n).total_hours, (acc n).total_hours / ((acc n).count : ℚ)⟩
    else acc n

/-- `CalendarAnalyzer.get_day_stats`: the table is computed independently
per pattern. -/
def get_day_stats (ed : List (String × List Rec)) :
    List (String × (String → DayAgg)) :=
  ed.map (fun pe => (pe.1, day_stats_of pe.2))

/-- `CalendarAnalyzer.get_time_spent`: per pattern, the sum of the event
timedeltas (seconds). -/
def get_time_spent (ed : List (String × List Rec)) : List (String × Int) :=
  ed.map (fun pe => (pe.1, (pe.2.map (fun r => r.2.2)).sum))

/-- One `{'total_hours': …, 'avg_hours': …}` cell of `get_weekly_stats`. -/
structure WeekAgg where
  total_hours : ℚ
  avg_hours : ℚ
deriving DecidableEq

/-- The per-event update of `get_weekly_stats` (lines 128–133): create the
cell at the week key if absent, then add the event hours to its total. -/
def week_step (st : Int → Option WeekAgg) (r : Rec) : Int → Option WeekAgg :=
  let k := week_key r.1
  let cur := (st k).getD ⟨0, 0⟩
  fun k2 => if k = k2 then some ⟨cur.total_hours + hours_of r.2.2, cur.avg_hours⟩
  else st k2

/-- `get_weekly_stats` for one pattern: accumulate, then set each average
to the total divided by 7 (lines 135–136). -/
def weekly_stats_of (evs : List Rec) : Int → Option WeekAgg :=
  let acc := evs.foldl week_step (fun _ => none)
  fun k => (acc k).map (fun a => ⟨a.total_hours, a.total_hours / 7⟩)

/-- `CalendarAnalyzer.get_weekly_stats`. -/
def get_weekly_stats (ed : List (String × List Rec)) :
    List (String × (Int → Option WeekAgg)) :=
  ed.map (fun pe => (pe.1, weekly_stats_of pe.2))

/-- One cell of `get_monthly_stats`. -/
structure MonthAgg where
  total_hours : ℚ
  avg_hours : ℚ
  event_count : Nat
deriving DecidableEq

/-- The per-event update of `get_monthly_stats` (lines 143–148). -/
def month_step (st : Int × Int → Option MonthAgg) (r : Rec) :
    Int × Int → Option MonthAgg :=
  let k := month_key r.1
  let cur := (st k).getD ⟨0, 0, 0⟩
  fun k2 => if k = k2 then
    some ⟨cur.total_hours + hours_of r.2.2, cur.avg_hours, cur.event_count + 1⟩
  else st k2

/-- `get_monthly_stats` for one pattern: accumulate, then set each average
to the total divided by `days_in_month / 7` weeks (lines 150–158). -/
def monthly_stats_of (evs : List Rec) : Int × Int → Option MonthAgg :=
  let acc := evs.foldl month_step (fun _ => none)
  fun k => (acc k).map (fun a =>
    ⟨a.total_hours, a.total_hours / ((days_in_month k.1 k.2 : ℚ) / 7), a.event_count⟩)

/-- `CalendarAnalyzer.get_monthly_stats`. -/
def get_monthly_stats (ed : List (String × List Rec)) :
    List (String × (Int × Int → Option MonthAgg)) :=
  ed.map (fun pe => (pe.1, monthly_stats_of pe.2))

/-- Observation: the total hours recorded for a week key, zero when the
key is absent. -/
def week_total_at (st : Int → Option WeekAgg) (k : Int) : ℚ :=
  match st k with
  | some a => a.total_hours
  | none => 0

/-- Observation: the total hours recorded for a month key, zero when the
key is absent. -/
def month_total_at (st : Int × Int → Option MonthAgg) (k : Int × Int) : ℚ :=
  match st k with
  | some a => a.total_hours
  | none => 0

/-- Observation: the event count recorded for a month key, zero when the
key is absent. -/
def month_count_at (st : Int × Int → Option MonthAgg) (k : Int × Int) : Nat :=
  match st k with
  | some a => a.event_count
  | none => 0

/-- Python `str.isspace` for the ASCII whitespace characters stripped by
`str.strip()`. -/
def py_space (c : Char) : Bool :=
  c = ' ' || c = '\t' || c = '\n' || c = '\x0d' || c = '\x0b' || c = '\x0c'

/-- Python `str.strip()` on the character list of a string. -/
def stripL (l : List Char) : List Char :=
  ((l.dropWhile py_space).reverse.dropWhile py_space).reverse

/-- Python `str.strip()`. -/
def py_strip (s : String) : String := String.mk (stripL s.data)

/-- Python `line.split(":", 1)` restricted to lines that contain a colon:
the part before the first colon and the remainder. -/
def split_first_colon : List Char → List Char × List Char
  | [] => ([], [])
  | c :: cs =>
    if c = ':' then ([], cs)
    else
      let p := split_first_colon cs
      (c :: p.1, p.2)

/-- A compiled regular expression as `re.compile` returns it: the source
text and whether `re.IGNORECASE` was passed. -/
structure RePattern where
  source : String
  ignoreCase : Bool
deriving DecidableEq

/-- Lowercasing a string character by character; stands in for the case
folding `re.IGNORECASE` performs. -/
def lower_str (s : String) : String := String.mk (s.data.map Char.toLower)

/-- Modelled from the spec: `re.Pattern.search` of the `re` library (not
part of this repository).  The underlying case-sensitive matcher `base` is
abstract; `re.IGNORECASE` makes the search insensitive to letter case,
modelled by case folding both the pattern source and the text. -/
def RePattern.searchWith (base : String → String → Bool) (p : RePattern)
    (text : String) : Bool :=
  if p.ignoreCase then base (lower_str p.source) (lower_str text)
  else base p.source text

/-- Lines 167–172 of `load_or_generate_patterns`: strip the line, skip it
when it is empty or has no colon, otherwise split at the first colon into
a stripped name and a stripped regex source. -/
def parse_pattern_line (raw : String) : Option (String × String) :=
  let line := py_strip raw
  if line = "" ∨ ':' ∉ line.data then none
  else
    let p := split_first_colon line.data
    some (String.mk (stripL p.1), String.mk (stripL p.2))

/-- The `patterns.txt`-exists branch of `load_or_generate_patterns`, over
the lines of the file: each kept line compiles its regex with
`re.IGNORECASE` and is assigned into the dict, overwriting any earlier
line with the same name.  The dict is modelled extensionally. -/
def load_patterns (lines : List String) : String → Option RePattern :=
  lines.foldl
    (fun d l =>
      match parse_pattern_line l with
      | none => d
      | some (n, r) => fun k => if k = n then some ⟨r, true⟩ else d k)
    (fun _ => none)

/-! Helper lemmas. -/

/-- The processed events of the walked calendars, with their searchable
texts, in walk order. -/
def processed_events (tzv : Tz) (start_time end_time : PyDateTime)
    (cals : List (List Component)) : List (Rec × String) :=
  (cals.flatMap id).filterMap (process_event tzv start_time end_time)

/-- The records among `l` whose searchable text a given regex matches. -/
def recs_matching (f : String → Bool) (l : List (Rec × String)) : List Rec :=
  (l.filter (fun rt => f rt.2)).map Prod.fst

/-- The records among `l` whose text no pattern matches. -/
def recs_unmatched (patterns : List (String × (String → Bool)))
    (l : List (Rec × String)) : List Rec :=
  (l.filter (fun rt => !(patterns.any (fun p => p.2 rt.2)))).map Prod.fst

lemma recs_matching_cons (f : String → Bool) (rt : Rec × String)
    (l : List (Rec × String)) :
    recs_matching f (rt :: l) =
      (if f rt.2 then [rt.1] else []) ++ recs_matching f l := by
  by_cases h : f rt.2 <;> simp [recs_matching, List.filter_cons, h]

lemma recs_unmatched_cons (patterns : List (String × (String → Bool)))
    (rt : Rec × String) (l : List (Rec × String)) :
    recs_unmatched patterns (rt :: l) =
      (if patterns.any (fun p => p.2 rt.2) then [] else [rt.1]) ++
        recs_unmatched patterns l := by
  by_cases h : patterns.any (fun p => p.2 rt.2) <;>
    simp [recs_unmatched, List.filter_cons, h]

lemma analyze_foldl (patterns : List (String × (String → Bool)))
    (tzv : Tz) (s e : PyDateTime) (evs : List Component) :
    ∀ st, evs.foldl (analyze_step patterns tzv s e) st =
      (st.1.map (fun en =>
        (en.1, en.2 ++ recs_matching en.1.2 (evs.filterMap (process_event tzv s e)))),
       st.2 ++ recs_unmatched patterns (evs.filterMap (process_event tzv s e))) := by
  induction evs with
  | nil =>
    intro st
    simp [recs_matching, recs_unmatched]
  | cons c t ih =>
    intro st
    rw [List.foldl_cons, ih, List.filterMap_cons]
    cases hp : process_event tzv s e c with
    | none => simp [analyze_step, hp]
    | some rt =>
      obtain ⟨r, text⟩ := rt
      simp only [analyze_step, hp, List.map_map, recs_matching_cons,
        recs_unmatched_cons]
      rw [Prod.mk.injEq]
      constructor
      · apply List.map_congr_left
        intro en _
        simp only [Function.comp_apply]
        by_cases h : en.1.2 text <;> simp [h]
      · by_cases h : patterns.any (fun p => p.2 text) <;> simp [h]

lemma analyze_events_eq (tzv : Tz) (s e : PyDateTime)
    (patterns : List (String × (String → Bool))) (cals : List (List Component)) :
    analyze_events tzv s e patterns cals =
      (patterns.map (fun p =>
        (p.1, recs_matching p.2 (processed_events tzv s e cals))),
       recs_unmatched patterns (processed_events tzv s e cals)) := by
  unfold analyze_events processed_events
  rw [analyze_foldl]
  simp [List.map_map]

lemma lookup_map_of_nodup {β : Type} (patterns : List (String × (String → Bool)))
    (G : String × (String → Bool) → β) (n : String) (f : String → Bool)
    (hnd : (patterns.map Prod.fst).Nodup) (hmem : (n, f) ∈ patterns) :
    List.lookup n (patterns.map (fun p => (p.1, G p))) = some (G (n, f)) := by
  induction patterns with
  | nil => simp at hmem
  | cons p t ih =>
    simp only [List.map_cons, List.nodup_cons] at hnd
    rcases List.mem_cons.mp hmem with h | h
    · subst h
      simp [List.lookup]
    · have hne : p.1 ≠ n := by
        intro hEq
        exact hnd.1 (hEq ▸ (List.mem_map.mpr ⟨(n, f), h, rfl⟩))
      simp only [List.map_cons, List.lookup]
      have : (n == p.1) = false := by
        simp [beq_iff_eq]
        exact fun hc => hne hc.symm
      rw [this]
      exact ih hnd.2 h

lemma hours_sum_cons (r : Rec) (l : List Rec) :
    hours_sum (r :: l) = hours_of r.2.2 + hours_sum l := by
  simp [hours_sum]

lemma weekday_bounds (d : PyDateTime) : 0 ≤ d.weekday ∧ d.weekday < 7 := by
  simp only [PyDateTime.weekday, ord_weekday]
  omega

lemma day_name_inj (a b : Int) (h1 : 0 ≤ a) (h2 : a < 7) (h3 : 0 ≤ b)
    (h4 : b < 7) : day_name a = day_name b ↔ a = b := by
  interval_cases a <;> interval_cases b <;> simp [day_name, days]

lemma day_foldl (evs : List Rec) :
    ∀ (acc : String → DayAgg) (n : String),
      (evs.foldl day_step acc) n =
        ⟨(acc n).count + (evs.filter (fun r => day_name r.1.weekday = n)).length,
         (acc n).total_hours + hours_sum (evs.filter (fun r => day_name r.1.weekday = n)),
         (acc n).avg_hours⟩ := by
  induction evs with
  | nil => intro acc n; simp [hours_sum]
  | cons r t ih =>
    intro acc n
    rw [List.foldl_cons, ih]
    by_cases h : day_name r.1.weekday = n
    · have hstep : (day_step acc r) n =
          ⟨(acc n).count + 1, (acc n).total_hours + hours_of r.2.2,
           (acc n).avg_hours⟩ := by
        simp [day_step, h]
      have hd : (decide (day_name r.1.weekday = n)) = true := by simp [h]
      simp [List.filter_cons, hd, hstep, hours_sum_cons, DayAgg.mk.injEq]
      refine ⟨by omega, by ring⟩
    · have hstep : (day_step acc r) n = acc n := by
        simp [day_step, h]
      have hd : (decide (day_name r.1.weekday = n)) = false := by simp [h]
      simp [List.filter_cons, hd, hstep]

lemma week_foldl (evs : List Rec) :
    ∀ (acc : Int → Option WeekAgg) (k : Int),
      (evs.foldl week_step acc) k =
        match acc k with
        | some a => some ⟨a.total_hours +
            hours_sum (evs.filter (fun r => week_key r.1 = k)), a.avg_hours⟩
        | none =>
          if evs.any (fun r => week_key r.1 = k) then
            some ⟨hours_sum (evs.filter (fun r => week_key r.1 = k)), 0⟩
          else none := by
  induction evs with
  | nil =>
    intro acc k
    cases hacc : acc k <;> simp [hours_sum, hacc]
  | cons r t ih =>
    intro acc k
    rw [List.foldl_cons, ih]
    by_cases h : week_key r.1 = k
    · have hd : (decide (week_key r.1 = k)) = true := by simp [h]
      cases hacc : acc k with
      | none =>
        have hstep : (week_step acc r) k =
            some ⟨(0 : ℚ) + hours_of r.2.2, (0 : ℚ)⟩ := by
          simp [week_step, h, hacc]
        simp [List.filter_cons, List.any_cons, hd, hstep, hacc,
          hours_sum_cons, WeekAgg.mk.injEq]
      | some a =>
        have hstep : (week_step acc r) k =
            some ⟨a.total_hours + hours_of r.2.2, a.avg_hours⟩ := by
          simp [week_step, h, hacc]
        simp [List.filter_cons, List.any_cons, hd, hstep, hacc,
          hours_sum_cons, WeekAgg.mk.injEq]
        ring
    · have hd : (decide (week_key r.1 = k)) = false := by simp [h]
      have hstep : (week_step acc r) k = acc k := by
        simp [week_step, h]
      cases hacc : acc k with
      | none =>
        simp only [List.filter_cons, List.any_cons, hstep, hacc]
        rw [hd, Bool.false_or]
        simp
      | some a =>
        simp only [List.filter_cons, hstep, hacc]
        rw [hd]
        simp

lemma month_foldl (evs : List Rec) :
    ∀ (acc : Int × Int → Option MonthAgg) (k : Int × Int),
      (evs.foldl month_step acc) k =
        match acc k with
        | some a => some ⟨a.total_hours +
            hours_sum (evs.filter (fun r => month_key r.1 = k)), a.avg_hours,
            a.event_count + (evs.filter (fun r => month_key r.1 = k)).length⟩
        | none =>
          if evs.any (fun r => month_key r.1 = k) then
            some ⟨hours_sum (evs.filter (fun r => month_key r.1 = k)), 0,
              (evs.filter (fun r => month_key r.1 = k)).length⟩
          else none := by
  induction evs with
  | nil =>
    intro acc k
    cases hacc : acc k <;> simp [hours_sum, hacc]
  | cons r t ih =>
    intro acc k
    rw [List.foldl_cons, ih]
    by_cases h : month_key r.1 = k
    · have hd : (decide (month_key r.1 = k)) = true := by simp [h]
      cases hacc : acc k with
      | none =>
        have hstep : (month_step acc r) k =
            some ⟨(0 : ℚ) + hours_of r.2.2, (0 : ℚ), 0 + 1⟩ := by
          simp [month_step, h, hacc]
        simp [List.filter_cons, List.any_cons, hd, hstep, hacc,
          hours_sum_cons, MonthAgg.mk.injEq]
        omega
      | some a =>
        have hstep : (month_step acc r) k =
            some ⟨a.total_hours + hours_of r.2.2, a.avg_hours,
              a.event_count + 1⟩ := by
          simp [month_step, h, hacc]
        simp [List.filter_cons, List.any_cons, hd, hstep, hacc,
          hours_sum_cons, MonthAgg.mk.injEq]
        refine ⟨by ring, by omega⟩
    · have hd : (decide (month_key r.1 = k)) = false := by simp [h]
      have hstep : (month_step acc r) k = acc k := by
        simp [month_step, h]
      cases hacc : acc k with
      | none =>
        simp only [List.filter_cons, List.any_cons, hstep, hacc]
        rw [hd, Bool.false_or]
        simp
      | some a =>
        simp only [List.filter_cons, hstep, hacc]
        rw [hd]
        simp

lemma week_key_monday (d : PyDateTime) :
    week_key d ≤ d.dateOrd ∧ d.dateOrd - week_key d < 7 ∧
      ord_weekday (week_key d) = 0 := by
  simp only [week_key, PyDateTime.dateOrd, PyDateTime.weekday, ord_weekday,
    ord_of_wall]
  omega

lemma filter_weekday (evs : List Rec) (w : Int) (h0 : 0 ≤ w) (h7 : w < 7) :
    evs.filter (fun r => day_name r.1.weekday = day_name w) =
      evs.filter (fun r => r.1.weekday = w) := by
  apply List.filter_congr
  intro r _
  have hb := weekday_bounds r.1
  exact decide_eq_decide.mpr (day_name_inj _ _ hb.1 hb.2 h0 h7)

lemma is_leap_iff (y : Int) :
    is_leap y = true ↔ (y % 4 = 0 ∧ (y % 100 ≠ 0 ∨ y % 400 = 0)) := by
  simp [is_leap]

lemma days_in_month_eq (y m : Int) (hy : 1 ≤ y) (h1 : 1 ≤ m) (h2 : m ≤ 12) :
    days_in_month y m = month_length (is_leap y) m := by
  by_cases hm : m = 12
  · subst hm
    unfold days_in_month ymd2ord days_before_year days_before_month cum_days
      month_length
    norm_num
    by_cases hL : is_leap y = true
    · have hp := (is_leap_iff y).mp hL
      simp [hL]
      omega
    · have hL2 : is_leap y = false := by
        cases hEq : is_leap y
        · rfl
        · exact absurd hEq hL
      have hp : ¬(y % 4 = 0 ∧ (y % 100 ≠ 0 ∨ y % 400 = 0)) := fun hc =>
        hL ((is_leap_iff y).mpr hc)
      simp [hL2]
      omega
  · have h2b : m ≤ 11 := by omega
    unfold days_in_month ymd2ord
    rw [if_neg hm]
    interval_cases m <;>
      cases hL : is_leap y <;>
        simp [days_before_month, cum_days, month_length, hL] <;> omega

lemma process_event_char (tzv : Tz) (s e : PyDateTime) (c : Component)
    (v : ICalDT) (hn : c.name = "VEVENT") (hs : c.dtstart = some v) :
    process_event tzv s e c =
      if (normalize_dt tzv (c.dtend.getD (add_one_hour v))).instant < s.instant ∨
          e.instant < (normalize_dt tzv v).instant then none
      else
        some ((normalize_dt tzv v, c.summary.getD "",
          if (match v with | .timed _ _ => false | .allDay _ => true) then 0
          else (normalize_dt tzv (c.dtend.getD (add_one_hour v))).instant -
            (normalize_dt tzv v).instant),
          (c.summary.getD "") ++ " " ++ (c.description.getD "") ++ " " ++
            (c.location.getD "")) := by
  unfold process_event
  rw [if_pos hn, hs]
  cases hde : c.dtend <;> rfl

lemma process_event_name (tzv : Tz) (s e : PyDateTime) (c : Component)
    (r : Rec) (t : String) (hp : process_event tzv s e c = some (r, t)) :
    c.name = "VEVENT" := by
  by_cases hn : c.name = "VEVENT"
  · exact hn
  · simp [process_event, hn] at hp

lemma process_event_dtstart (tzv : Tz) (s e : PyDateTime) (c : Component)
    (r : Rec) (t : String) (hp : process_event tzv s e c = some (r, t)) :
    ∃ v, c.dtstart = some v := by
  cases hds : c.dtstart with
  | some v => exact ⟨v, rfl⟩
  | none =>
    have hn := process_event_name tzv s e c r t hp
    simp [process_event, hn, hds] at hp

lemma hours_sum_append (a b : List Rec) :
    hours_sum (a ++ b) = hours_sum a + hours_sum b := by
  simp [hours_sum]

lemma filter_append_single {α : Type} (p : α → Bool) (l : List α) (a : α) :
    (l ++ [a]).filter p = l.filter p ++ (if p a then [a] else []) := by
  rw [List.filter_append]
  by_cases h : p a <;> simp [h]

lemma filter_nil_of_any_false {α : Type} (p : α → Bool) (l : List α)
    (h : l.any p = false) : l.filter p = [] := by
  induction l with
  | nil => rfl
  | cons a t ih =>
    simp only [List.any_cons, Bool.or_eq_false_iff] at h
    simp [List.filter_cons, h.1, ih h.2]

lemma day_stats_count (evs : List Rec) (n : String) :
    (day_stats_of evs n).count =
      (evs.filter (fun r => day_name r.1.weekday = n)).length := by
  unfold day_stats_of
  rw [day_foldl]
  split_ifs <;> simp

lemma day_stats_total (evs : List Rec) (n : String) :
    (day_stats_of evs n).total_hours =
      hours_sum (evs.filter (fun r => day_name r.1.weekday = n)) := by
  unfold day_stats_of
  rw [day_foldl]
  split_ifs <;> simp

lemma day_stats_avg (evs : List Rec) (n : String) :
    (day_stats_of evs n).avg_hours =
      if 0 < (evs.filter (fun r => day_name r.1.weekday = n)).length then
        hours_sum (evs.filter (fun r => day_name r.1.weekday = n)) /
          ((evs.filter (fun r => day_name r.1.weekday = n)).length : ℚ)
      else 0 := by
  unfold day_stats_of
  rw [day_foldl]
  split_ifs with h1 h2 <;> simp_all

lemma week_total_at_eq (evs : List Rec) (k : Int) :
    week_total_at (weekly_stats_of evs) k =
      hours_sum (evs.filter (fun r => week_key r.1 = k)) := by
  unfold week_total_at weekly_stats_of
  rw [week_foldl]
  by_cases hany : evs.any (fun r => week_key r.1 = k) = true
  · simp [hany]
  · have hf : evs.filter (fun r => week_key r.1 = k) = [] :=
      filter_nil_of_any_false _ _ (by simpa using hany)
    simp [hany, hf, hours_sum]

lemma month_total_at_eq (evs : List Rec) (k : Int × Int) :
    month_total_at (monthly_stats_of evs) k =
      hours_sum (evs.filter (fun r => month_key r.1 = k)) := by
  unfold month_total_at monthly_stats_of
  rw [month_foldl]
  by_cases hany : evs.any (fun r => month_key r.1 = k) = true
  · simp [hany]
  · have hf : evs.filter (fun r => month_key r.1 = k) = [] :=
      filter_nil_of_any_false _ _ (by simpa using hany)
    simp [hany, hf, hours_sum]

lemma month_count_at_eq (evs : List Rec) (k : Int × Int) :
    month_count_at (monthly_stats_of evs) k =
      (evs.filter (fun r => month_key r.1 = k)).length := by
  unfold month_count_at monthly_stats_of
  rw [month_foldl]
  by_cases hany : evs.any (fun r => month_key r.1 = k) = true
  · simp [hany]
  · have hf : evs.filter (fun r => month_key r.1 = k) = [] :=
      filter_nil_of_any_false _ _ (by simpa using hany)
    simp [hany, hf]

lemma split_first_colon_spec (a b : List Char) (ha : ':' ∉ a) :
    split_first_colon (a ++ ':' :: b) = (a, b) := by
  induction a with
  | nil => simp [split_first_colon]
  | cons c cs ih =>
    have hc : ¬ c = ':' := fun h => ha (h ▸ List.mem_cons_self c cs)
    have ih2 := ih (fun h => ha (List.mem_cons_of_mem c h))
    simp [split_first_colon, hc, ih2]

lemma load_patterns_invariant (lines : List String) :
    ∀ (d0 : String → Option RePattern),
      (∀ k p, d0 k = some p → p.ignoreCase = true) →
      ∀ k p,
        (lines.foldl
          (fun d l =>
            match parse_pattern_line l with
            | none => d
            | some (n, r) => fun k => if k = n then some ⟨r, true⟩ else d k)
          d0) k = some p →
        p.ignoreCase = true := by
  induction lines with
  | nil => exact fun d0 h0 k p hk => h0 k p hk
  | cons l t ih =>
    intro d0 h0 k p hk
    rw [List.foldl_cons] at hk
    refine ih _ ?_ k p hk
    intro k2 p2 hk2
    cases hpl : parse_pattern_line l with
    | none =>
      rw [hpl] at hk2
      exact h0 k2 p2 hk2
    | some nr =>
      obtain ⟨n2, r2⟩ := nr
      rw [hpl] at hk2
      by_cases hkn : k2 = n2
      · simp only [hkn, if_pos] at hk2
        simp only [if_true, Option.some.injEq] at hk2
        rw [← hk2]
      · simp only [if_neg hkn] at hk2
        exact h0 k2 p2 hk2

/-! Claim theorems. -/

/-- C1: for every event that passes the analysis-window filter and every
pattern, `analyze_events` classifies the event under that pattern if and
only if the pattern matches the event's searchable text, which is the
summary, description and location joined by single spaces with missing
fields read as the empty string: the list stored under a pattern name is
exactly the window-surviving events whose text that pattern matches. -/
theorem c1_classification (tzv : Tz) (start_time end_time : PyDateTime)
    (patterns : List (String × (String → Bool))) (cals : List (List Component))
    (n : String) (rgx : String → Bool)
    (hnd : (patterns.map Prod.fst).Nodup) (hmem : (n, rgx) ∈ patterns) :
    List.lookup n (analyze_events tzv start_time end_time patterns cals).1 =
      some (((processed_events tzv start_time end_time cals).filter
        (fun rt => rgx rt.2)).map Prod.fst) ∧
    ∀ c r t, process_event tzv start_time end_time c = some (r, t) →
      t = (c.summary.getD "") ++ " " ++ (c.description.getD "") ++ " " ++
        (c.location.getD "") := by
  constructor
  · rw [analyze_events_eq]
    exact lookup_map_of_nodup patterns
      (fun p => recs_matching p.2 (processed_events tzv start_time end_time cals))
      n rgx hnd hmem
  · intro c r t hp
    have hn := process_event_name tzv start_time end_time c r t hp
    obtain ⟨v, hs⟩ := process_event_dtstart tzv start_time end_time c r t hp
    rw [process_event_char tzv start_time end_time c v hn hs] at hp
    split at hp
    · exact absurd hp (by simp)
    · simp only [Option.some.injEq, Prod.mk.injEq] at hp
      exact hp.2.symm

/-- C1 witness: a concrete event and pattern list. -/
theorem c1_classification_witness :
    List.lookup "g"
      (analyze_events ⟨fun _ => -28800, fun _ => -28800⟩ ⟨0, 0⟩ ⟨10 ^ 12, 0⟩
        [("g", fun s => s == "gym  ")]
        [[⟨"VEVENT", some (.timed 1000000 0), none, some "gym", none, none⟩]]).1 =
      some (((processed_events ⟨fun _ => -28800, fun _ => -28800⟩ ⟨0, 0⟩
        ⟨10 ^ 12, 0⟩
        [[⟨"VEVENT", some (.timed 1000000 0), none, some "gym", none, none⟩]]).filter
          (fun rt => rt.2 == "gym  ")).map Prod.fst) ∧
    ∀ c r t, process_event ⟨fun _ => -28800, fun _ => -28800⟩ ⟨0, 0⟩ ⟨10 ^ 12, 0⟩
        c = some (r, t) →
      t = (c.summary.getD "") ++ " " ++ (c.description.getD "") ++ " " ++
        (c.location.getD "") :=
  c1_classification ⟨fun _ => -28800, fun _ => -28800⟩ ⟨0, 0⟩ ⟨10 ^ 12, 0⟩
    [("g", fun s => s == "gym  ")]
    [[⟨"VEVENT", some (.timed 1000000 0), none, some "gym", none, none⟩]]
    "g" (fun s => s == "gym  ") (by simp) (by simp)

/-- C2 counterexample: the claim asserts instant preservation regardless of
the timezone the event carried; for an event stored with wall clock
1000000 s and offset +3600 s the stored value denotes instant 996400 while
the normalized value denotes instant 1000000, so the claim is false. -/
theorem c2_normalization_counterexample :
    ¬ ((normalize_dt ⟨fun _ => -28800, fun _ => -28800⟩
        (.timed 1000000 3600)).instant =
      (PyDateTime.mk 1000000 3600).instant) := by
  decide

/-- C2 amended: `replace(tzinfo=utc)` reinterprets the stored wall clock as
UTC, so the normalized value always denotes the stored wall-clock reading
taken as a UTC instant, expressed in the local zone; the instant of the
stored value is preserved exactly when the event carried UTC (offset 0). -/
theorem c2_normalization_amended (tzv : Tz) (w o : Int) (h : o = 0) :
    (normalize_dt tzv (.timed w o)).instant = (PyDateTime.mk w o).instant ∧
    (normalize_dt tzv (.timed w o)).off =
      tzv.fromInstant ((PyDateTime.mk w o).instant) ∧
    ∀ o2, (normalize_dt tzv (.timed w o2)).instant = w := by
  subst h
  refine ⟨?_, ?_, ?_⟩ <;>
    simp [normalize_dt, astimezone, replace_tzinfo_utc, PyDateTime.instant]

/-- C2 amended witness. -/
theorem c2_normalization_amended_witness :
    (normalize_dt ⟨fun _ => -28800, fun _ => -28800⟩
        (.timed 1000000 0)).instant = (PyDateTime.mk 1000000 0).instant ∧
    (normalize_dt ⟨fun _ => -28800, fun _ => -28800⟩ (.timed 1000000 0)).off =
      (⟨fun _ => -28800, fun _ => -28800⟩ : Tz).fromInstant
        ((PyDateTime.mk 1000000 0).instant) ∧
    ∀ o2, (normalize_dt ⟨fun _ => -28800, fun _ => -28800⟩
      (.timed 1000000 o2)).instant = 1000000 :=
  c2_normalization_amended ⟨fun _ => -28800, fun _ => -28800⟩ 1000000 0 rfl

/-- C3: an event with a DTSTART is skipped exactly when its normalized end
is strictly before the window start or its normalized start is strictly
after the window end; every processed event lands in some pattern's list
or in the unmatched list. -/
theorem c3_window_filter (tzv : Tz) (start_time end_time : PyDateTime)
    (c : Component) (v : ICalDT)
    (hn : c.name = "VEVENT") (hs : c.dtstart = some v) :
    (process_event tzv start_time end_time c = none ↔
      ((normalize_dt tzv (c.dtend.getD (add_one_hour v))).instant <
          start_time.instant ∨
        end_time.instant < (normalize_dt tzv v).instant)) ∧
    (∀ patterns cals r t,
      process_event tzv start_time end_time c = some (r, t) →
      c ∈ cals.flatMap id →
      (∃ en ∈ (analyze_events tzv start_time end_time patterns cals).1,
          r ∈ en.2) ∨
        r ∈ (analyze_events tzv start_time end_time patterns cals).2) := by
  constructor
  · rw [process_event_char tzv start_time end_time c v hn hs]
    by_cases hw : (normalize_dt tzv (c.dtend.getD (add_one_hour v))).instant <
        start_time.instant ∨
        end_time.instant < (normalize_dt tzv v).instant
    · simp [hw]
    · simp [hw]
  · intro patterns cals r t hp hmem
    have hproc : (r, t) ∈ processed_events tzv start_time end_time cals :=
      List.mem_filterMap.mpr ⟨c, hmem, hp⟩
    rw [analyze_events_eq]
    by_cases hmatch : patterns.any (fun p => p.2 t) = true
    · left
      obtain ⟨p, hpmem, hpt⟩ := List.any_eq_true.mp hmatch
      refine ⟨(p.1, recs_matching p.2
        (processed_events tzv start_time end_time cals)),
        List.mem_map.mpr ⟨p, hpmem, rfl⟩, ?_⟩
      exact List.mem_map.mpr ⟨(r, t),
        List.mem_filter.mpr ⟨hproc, hpt⟩, rfl⟩
    · right
      refine List.mem_map.mpr ⟨(r, t), List.mem_filter.mpr ⟨hproc, ?_⟩, rfl⟩
      simp only [Bool.not_eq_true] at hmatch
      simp [hmatch]

/-- C3 witness: a concrete in-window event. -/
theorem c3_window_filter_witness :
    (process_event ⟨fun _ => 0, fun _ => 0⟩ ⟨0, 0⟩ ⟨10 ^ 12, 0⟩
        ⟨"VEVENT", some (.timed 1000000 0), none, none, none, none⟩ = none ↔
      ((normalize_dt ⟨fun _ => 0, fun _ => 0⟩
          ((⟨"VEVENT", some (.timed 1000000 0), none, none, none,
            none⟩ : Component).dtend.getD
            (add_one_hour (.timed 1000000 0)))).instant <
          (⟨0, 0⟩ : PyDateTime).instant ∨
        (⟨10 ^ 12, 0⟩ : PyDateTime).instant <
          (normalize_dt ⟨fun _ => 0, fun _ => 0⟩ (.timed 1000000 0)).instant)) ∧
    (∀ patterns cals r t,
      process_event ⟨fun _ => 0, fun _ => 0⟩ ⟨0, 0⟩ ⟨10 ^ 12, 0⟩
        ⟨"VEVENT", some (.timed 1000000 0), none, none, none, none⟩ =
          some (r, t) →
      (⟨"VEVENT", some (.timed 1000000 0), none, none, none,
        none⟩ : Component) ∈ cals.flatMap id →
      (∃ en ∈ (analyze_events ⟨fun _ => 0, fun _ => 0⟩ ⟨0, 0⟩ ⟨10 ^ 12, 0⟩
          patterns cals).1, r ∈ en.2) ∨
        r ∈ (analyze_events ⟨fun _ => 0, fun _ => 0⟩ ⟨0, 0⟩ ⟨10 ^ 12, 0⟩
          patterns cals).2) :=
  c3_window_filter ⟨fun _ => 0, fun _ => 0⟩ ⟨0, 0⟩ ⟨10 ^ 12, 0⟩
    ⟨"VEVENT", some (.timed 1000000 0), none, none, none, none⟩
    (.timed 1000000 0) rfl rfl

/-- C8: the returned dictionary has exactly the supplied pattern names as
keys, in order; each entry holds exactly the processed events whose text
that pattern matches (so an event is appended once per matching pattern);
and an event is reported unmatched if and only if no pattern matches it. -/
theorem c8_partition (tzv : Tz) (start_time end_time : PyDateTime)
    (patterns : List (String × (String → Bool))) (cals : List (List Component)) :
    (analyze_events tzv start_time end_time patterns cals).1.map Prod.fst =
      patterns.map Prod.fst ∧
    (analyze_events tzv start_time end_time patterns cals).1 =
      patterns.map (fun p =>
        (p.1, ((processed_events tzv start_time end_time cals).filter
          (fun rt => p.2 rt.2)).map Prod.fst)) ∧
    (analyze_events tzv start_time end_time patterns cals).2 =
      ((processed_events tzv start_time end_time cals).filter
        (fun rt => !(patterns.any (fun p => p.2 rt.2)))).map Prod.fst := by
  rw [analyze_events_eq]
  exact ⟨by simp, rfl, rfl⟩

/-- C9: when DTEND is missing, the end defaults to the start plus one
hour, so a timed event gets a duration of exactly one hour (3600 s) and an
all-day event still gets zero. -/
theorem c9_missing_dtend (tzv : Tz) (s e : PyDateTime) (c : Component)
    (v : ICalDT) (r : Rec) (t : String)
    (hend : c.dtend = none) (hs : c.dtstart = some v)
    (hp : process_event tzv s e c = some (r, t)) :
    (∀ w o, v = .timed w o → r.2.2 = 3600 ∧ hours_of r.2.2 = 1) ∧
    (∀ d, v = .allDay d → r.2.2 = 0) := by
  have hn := process_event_name tzv s e c r t hp
  rw [process_event_char tzv s e c v hn hs, hend] at hp
  split at hp
  · exact absurd hp (by simp)
  · simp only [Option.some.injEq, Prod.mk.injEq] at hp
    constructor
    · rintro w o rfl
      obtain ⟨hr, -⟩ := hp
      have h36 : r.2.2 = 3600 := by
        rw [← hr]
        simp [normalize_dt, astimezone, replace_tzinfo_utc,
          PyDateTime.instant, add_one_hour]
      exact ⟨h36, by rw [h36]; norm_num [hours_of]⟩
    · rintro d rfl
      obtain ⟨hr, -⟩ := hp
      rw [← hr]
      simp

/-- C9 witness: a concrete timed event without DTEND. -/
theorem c9_missing_dtend_witness :
    (∀ w o, (ICalDT.timed 1000000 0) = .timed w o →
      ((⟨1000000, 0⟩, "", 3600) : Rec).2.2 = 3600 ∧
        hours_of ((⟨1000000, 0⟩, "", 3600) : Rec).2.2 = 1) ∧
    (∀ d, (ICalDT.timed 1000000 0) = .allDay d →
      ((⟨1000000, 0⟩, "", 3600) : Rec).2.2 = 0) :=
  c9_missing_dtend ⟨fun _ => 0, fun _ => 0⟩ ⟨0, 0⟩ ⟨10 ^ 12, 0⟩
    ⟨"VEVENT", some (.timed 1000000 0), none, none, none, none⟩
    (.timed 1000000 0) (⟨1000000, 0⟩, "", 3600) "  " rfl rfl (by decide)

/-- C4: a matched all-day event is recorded with start midnight local time
on its date and zero duration, so it adds nothing to any day, week or
month hour total nor to total time spent, while adding one to the count of
its weekday and of its month. -/
theorem c4_all_day (tzv : Tz) (s e : PyDateTime) (c : Component) (d : Int)
    (r : Rec) (t : String)
    (hs : c.dtstart = some (.allDay d))
    (hp : process_event tzv s e c = some (r, t)) :
    r.1 = combine_midnight tzv d ∧
    r.2.2 = 0 ∧
    (∀ (evs : List Rec) (n : String),
      (day_stats_of (evs ++ [r]) n).total_hours =
        (day_stats_of evs n).total_hours) ∧
    (∀ evs : List Rec,
      (day_stats_of (evs ++ [r]) (day_name r.1.weekday)).count =
        (day_stats_of evs (day_name r.1.weekday)).count + 1) ∧
    (∀ (evs : List Rec) (k : Int),
      week_total_at (weekly_stats_of (evs ++ [r])) k =
        week_total_at (weekly_stats_of evs) k) ∧
    (∀ (evs : List Rec) (k : Int × Int),
      month_total_at (monthly_stats_of (evs ++ [r])) k =
        month_total_at (monthly_stats_of evs) k) ∧
    (∀ evs : List Rec,
      month_count_at (monthly_stats_of (evs ++ [r])) (month_key r.1) =
        month_count_at (monthly_stats_of evs) (month_key r.1) + 1) ∧
    (∀ (p : String) (evs : List Rec),
      get_time_spent [(p, evs ++ [r])] = get_time_spent [(p, evs)]) := by
  have hn := process_event_name tzv s e c r t hp
  rw [process_event_char tzv s e c (.allDay d) hn hs] at hp
  split at hp
  · exact absurd hp (by simp)
  · simp only [Option.some.injEq, Prod.mk.injEq] at hp
    obtain ⟨hr, -⟩ := hp
    have hstart : r.1 = combine_midnight tzv d := by
      rw [← hr]
      simp [normalize_dt]
    have hdur : r.2.2 = 0 := by
      rw [← hr]
      simp
    have hzero : hours_of r.2.2 = 0 := by
      rw [hdur]
      norm_num [hours_of]
    refine ⟨hstart, hdur, ?_, ?_, ?_, ?_, ?_, ?_⟩
    · intro evs n
      rw [day_stats_total, day_stats_total, filter_append_single,
        hours_sum_append]
      by_cases hc : day_name r.1.weekday = n <;>
        simp [hc, hours_sum, hzero]
    · intro evs
      rw [day_stats_count, day_stats_count, filter_append_single]
      simp
    · intro evs k
      rw [week_total_at_eq, week_total_at_eq, filter_append_single,
        hours_sum_append]
      by_cases hc : week_key r.1 = k <;> simp [hc, hours_sum, hzero]
    · intro evs k
      rw [month_total_at_eq, month_total_at_eq, filter_append_single,
        hours_sum_append]
      by_cases hc : month_key r.1 = k <;> simp [hc, hours_sum, hzero]
    · intro evs
      rw [month_count_at_eq, month_count_at_eq, filter_append_single]
      simp
    · intro p evs
      simp [get_time_spent, hdur]

/-- C4 witness: a concrete all-day event inside the window. -/
theorem c4_all_day_witness :
    ((⟨738999 * 86400, 0⟩, "x", (0 : Int)) : Rec).1 =
      combine_midnight ⟨fun _ => 0, fun _ => 0⟩ 739000 ∧
    ((⟨738999 * 86400, 0⟩, "x", (0 : Int)) : Rec).2.2 = 0 :=
  ⟨(c4_all_day ⟨fun _ => 0, fun _ => 0⟩ ⟨0, 0⟩ ⟨10 ^ 14, 0⟩
      ⟨"VEVENT", some (.allDay 739000), none, some "x", none, none⟩ 739000
      (⟨738999 * 86400, 0⟩, "x", 0) "x  " rfl (by decide)).1,
   (c4_all_day ⟨fun _ => 0, fun _ => 0⟩ ⟨0, 0⟩ ⟨10 ^ 14, 0⟩
      ⟨"VEVENT", some (.allDay 739000), none, some "x", none, none⟩ 739000
      (⟨738999 * 86400, 0⟩, "x", 0) "x  " rfl (by decide)).2.1⟩

/-- C5: `get_weekly_stats` keys each event by the Monday on or before its
start date (the week key is a Monday, at most six days before the start
date), a week's total is the sum of the hours of its events, and its
average is the total divided by 7 unconditionally. -/
theorem c5_weekly (evs : List Rec) (k : Int) (d : PyDateTime) :
    (weekly_stats_of evs k =
      if evs.any (fun r => week_key r.1 = k) then
        some ⟨hours_sum (evs.filter (fun r => week_key r.1 = k)),
          hours_sum (evs.filter (fun r => week_key r.1 = k)) / 7⟩
      else none) ∧
    (week_key d ≤ d.dateOrd ∧ d.dateOrd - week_key d < 7 ∧
      ord_weekday (week_key d) = 0) ∧
    (∀ ed, get_weekly_stats ed =
      ed.map (fun pe => (pe.1, weekly_stats_of pe.2))) := by
  refine ⟨?_, week_key_monday d, fun ed => rfl⟩
  unfold weekly_stats_of
  rw [week_foldl]
  by_cases hany : evs.any (fun r => week_key r.1 = k) = true <;>
    simp [hany]

/-- C6: `get_monthly_stats` groups events by the (year, month) of their
start, sums hours and counts events per month, and divides the total by
`days_in_month / 7`, where `days_in_month` (first of next month minus
first of this month, December rolling into January) is the true month
length, also for February in leap years. -/
theorem c6_monthly (y m : Int) (hy : 1 ≤ y) (h1 : 1 ≤ m) (h2 : m ≤ 12) :
    (∀ (evs : List Rec) (k : Int × Int),
      monthly_stats_of evs k =
        if evs.any (fun r => month_key r.1 = k) then
          some ⟨hours_sum (evs.filter (fun r => month_key r.1 = k)),
            hours_sum (evs.filter (fun r => month_key r.1 = k)) /
              ((days_in_month k.1 k.2 : ℚ) / 7),
            (evs.filter (fun r => month_key r.1 = k)).length⟩
        else none) ∧
    days_in_month y m = month_length (is_leap y) m ∧
    (∀ ed, get_monthly_stats ed =
      ed.map (fun pe => (pe.1, monthly_stats_of pe.2))) := by
  refine ⟨?_, days_in_month_eq y m hy h1 h2, fun ed => rfl⟩
  intro evs k
  unfold monthly_stats_of
  rw [month_foldl]
  by_cases hany : evs.any (fun r => month_key r.1 = k) = true <;>
    simp [hany]

/-- C6 witness: February 2024 (leap year). -/
theorem c6_monthly_witness :
    days_in_month 2024 2 = month_length (is_leap 2024) 2 ∧
    monthly_stats_of [] (2024, 2) = none :=
  ⟨(c6_monthly 2024 2 (by norm_num) (by norm_num) (by norm_num)).2.1,
   by
    have h := (c6_monthly 2024 2 (by norm_num) (by norm_num)
      (by norm_num)).1 [] (2024, 2)
    simpa using h⟩

/-- C7: for every pattern table and weekday, `get_day_stats` reports the
number of events starting on that weekday, the sum of their hours, and an
average of total over count when the count is positive and 0.0 otherwise. -/
theorem c7_day_stats (w : Int) (h0 : 0 ≤ w) (h7 : w < 7) :
    (∀ evs : List Rec,
      (day_stats_of evs (day_name w)).count =
        (evs.filter (fun r => r.1.weekday = w)).length ∧
      (day_stats_of evs (day_name w)).total_hours =
        hours_sum (evs.filter (fun r => r.1.weekday = w)) ∧
      (day_stats_of evs (day_name w)).avg_hours =
        (if 0 < (evs.filter (fun r => r.1.weekday = w)).length then
          hours_sum (evs.filter (fun r => r.1.weekday = w)) /
            ((evs.filter (fun r => r.1.weekday = w)).length : ℚ)
        else 0)) ∧
    (∀ ed, get_day_stats ed = ed.map (fun pe => (pe.1, day_stats_of pe.2))) := by
  refine ⟨fun evs => ?_, fun ed => rfl⟩
  rw [← filter_weekday evs w h0 h7]
  exact ⟨day_stats_count evs _, day_stats_total evs _, day_stats_avg evs _⟩

/-- C7 witness: weekday 2 (Wednesday) on the empty event list and on a
one-event list. -/
theorem c7_day_stats_witness :
    (∀ evs : List Rec,
      (day_stats_of evs (day_name 2)).count =
        (evs.filter (fun r => r.1.weekday = 2)).length ∧
      (day_stats_of evs (day_name 2)).total_hours =
        hours_sum (evs.filter (fun r => r.1.weekday = 2)) ∧
      (day_stats_of evs (day_name 2)).avg_hours =
        (if 0 < (evs.filter (fun r => r.1.weekday = 2)).length then
          hours_sum (evs.filter (fun r => r.1.weekday = 2)) /
            ((evs.filter (fun r => r.1.weekday = 2)).length : ℚ)
        else 0)) ∧
    (∀ ed, get_day_stats ed = ed.map (fun pe => (pe.1, day_stats_of pe.2))) :=
  c7_day_stats 2 (by norm_num) (by norm_num)

/-- C10: a line of `patterns.txt` is skipped when blank after stripping or
colon-free; otherwise the name is the stripped text before the first colon
and the regex source the stripped remainder, compiled with IGNORECASE, so
matching is insensitive to letter case; a later line with the same name
overwrites an earlier one. -/
theorem c10_pattern_parsing (lines : List String) (raw bad : String)
    (a b : List Char)
    (hb : py_strip bad = "" ∨ ':' ∉ (py_strip bad).data)
    (hsplit : (py_strip raw).data = a ++ ':' :: b) (ha : ':' ∉ a) :
    parse_pattern_line bad = none ∧
    parse_pattern_line raw =
      some (String.mk (stripL a), String.mk (stripL b)) ∧
    load_patterns (lines ++ [raw]) (String.mk (stripL a)) =
      some ⟨String.mk (stripL b), true⟩ ∧
    (∀ k p, load_patterns lines k = some p → p.ignoreCase = true) ∧
    (∀ base p s1 s2, p.ignoreCase = true → lower_str s1 = lower_str s2 →
      RePattern.searchWith base p s1 = RePattern.searchWith base p s2) := by
  have hparse : parse_pattern_line raw =
      some (String.mk (stripL a), String.mk (stripL b)) := by
    unfold parse_pattern_line
    have hne : ¬(py_strip raw = "" ∨ ':' ∉ (py_strip raw).data) := by
      rintro (hc | hc)
      · rw [hc] at hsplit
        simp at hsplit
      · exact hc (hsplit ▸ List.mem_append.mpr
          (Or.inr (List.mem_cons_self ':' b)))
    rw [if_neg hne, hsplit, split_first_colon_spec a b ha]
  refine ⟨?_, hparse, ?_, ?_, ?_⟩
  · unfold parse_pattern_line
    rw [if_pos hb]
  · unfold load_patterns
    rw [List.foldl_append]
    simp [hparse]
  · intro k p hk
    unfold load_patterns at hk
    exact load_patterns_invariant lines (fun _ => none) (by intro k2 p2 h2; cases h2)
      k p hk
  · intro base p s1 s2 hic hlow
    simp [RePattern.searchWith, hic, hlow]

/-- C10 witness: concrete pattern lines. -/
theorem c10_pattern_parsing_witness :
    parse_pattern_line "no colon" = none ∧
    parse_pattern_line " gym : go to gym " =
      some (String.mk (stripL ("gym ").data),
        String.mk (stripL (" go to gym").data)) ∧
    load_patterns (["a: x"] ++ [" gym : go to gym "])
      (String.mk (stripL ("gym ").data)) =
      some ⟨String.mk (stripL (" go to gym").data), true⟩ ∧
    (∀ k p, load_patterns ["a: x"] k = some p → p.ignoreCase = true) ∧
    (∀ base p s1 s2, p.ignoreCase = true → lower_str s1 = lower_str s2 →
      RePattern.searchWith base p s1 = RePattern.searchWith base p s2) :=
  c10_pattern_parsing ["a: x"] " gym : go to gym " "no colon"
    ("gym ").data (" go to gym").data (by decide) (by decide) (by decide)

/-! Concrete evaluation checks of the embedding. -/

example : parse_pattern_line "  gym : go (to)? gym  " = some ("gym", "go (to)? gym") := by decide

example : parse_pattern_line "   " = none := by decide

example : parse_pattern_line "no colon here" = none := by decide

example : load_patterns ["a: x", "b: y", "a: z"] "a" = some ⟨"z", true⟩ := by decide

example : load_patterns ["a: x", "b: y", "a: z"] "c" = none := by decide

example : civil_from_ord (ymd2ord 2024 3 1) = (2024, 3, 1) := by decide

example : civil_from_ord (ymd2ord 1999 12 31) = (1999, 12, 31) := by decide

example : civil_from_ord (ymd2ord 1 1 1) = (1, 1, 1) := by decide

example : days_in_month 2024 2 = 29 := by decide

example : days_in_month 2023 2 = 28 := by decide

example : ymd2ord 1970 1 1 = 719163 := by decide

example : ord_weekday 1 = 0 := by decide

example :
    process_event ⟨fun _ => -28800, fun _ => -28800⟩ ⟨0, 0⟩ ⟨10 ^ 12, 0⟩
      ⟨"VEVENT", some (.timed 1000000 0), none, some "gym", none, none⟩ =
      some ((⟨1000000 - 28800, -28800⟩, "gym", 3600), "gym  ") := by
  decide

example :
    (analyze_events ⟨fun _ => -28800, fun _ => -28800⟩ ⟨0, 0⟩ ⟨10 ^ 12, 0⟩
      [("g", fun s => s == "gym  "), ("x", fun _ => false)]
      [[⟨"VEVENT", some (.timed 1000000 0), none, some "gym", none, none⟩]]).1 =
      [("g", [(⟨1000000 - 28800, -28800⟩, "gym", 3600)]), ("x", [])] := by
  decide
